import Mathlib

/-!
Verification of the scan / normalize / filter / export core of the Trade
repository.  The definitions below are shallow embeddings of the Python
source: `src/src/models/trade.py` (data model and pydantic validation),
`src/src/scanner/core.py` (the `TradeScanner` orchestrator), and
`src/src/api/binance.py` together with `src/binance_api.py` (the batched
kline range fetcher).  Network adapters are abstracted as oracle functions
passed to the orchestrator; machine floats are embedded as rationals; code
that raises is embedded with `Option` / `Except`.
-/

/-- Accumulating pass of the decimal-digit reader: value of the digits seen
so far, `none` at the first non-digit character. -/
def digitsGo : Nat → List Char → Option Nat
  | acc, [] => some acc
  | acc, c :: rest =>
    if c.isDigit then digitsGo (acc * 10 + (c.toNat - 48)) rest else none

/-- Value of a run of decimal digits; `none` when the run is empty or holds a
character that is not a digit. -/
def digitsVal : List Char → Option Nat
  | [] => none
  | cs => digitsGo 0 cs

/-- Python `float(s)` on a plain decimal literal (optional leading minus,
integer digits, optional dot and fraction digits): the exact value as a
rational, `none` where Python raises `ValueError`. -/
def pyFloat (s : String) : Option ℚ :=
  let cs := s.toList
  let neg : Bool := cs.headD ' ' == '-'
  let body : List Char := if neg then cs.tail else cs
  let sign : Int := if neg then -1 else 1
  match body.splitOn '.' with
  | [ip] => (digitsVal ip).map (fun n => mkRat (sign * (n : Int)) 1)
  | [ip, fp] =>
    match ip, fp with
    | [], [] => none
    | [], _ => (digitsVal fp).map (fun f => mkRat (sign * (f : Int)) (10 ^ fp.length))
    | _, [] => (digitsVal ip).map (fun n => mkRat (sign * (n : Int)) 1)
    | _, _ => do
      let n ← digitsVal ip
      let f ← digitsVal fp
      some (mkRat (sign * ((n * 10 ^ fp.length + f : Nat) : Int)) (10 ^ fp.length))
  | _ => none

/-- `TradingPair` of `src/src/models/trade.py`; the pydantic `timestamp`
field (capture instant) is carried as a rational number of seconds. -/
structure TradingPair where
  symbol : String
  exchange : String
  price : ℚ
  volume_24h : ℚ
  bid : Option ℚ
  ask : Option ℚ
  change_24h : Option ℚ
  timestamp : ℚ
deriving DecidableEq

/-- Pydantic construction of a `TradingPair` (`price` gt 0, `volume_24h`
ge 0, `bid` and `ask` gt 0 when present): `none` embeds the
`ValidationError` — a `ValueError` — raised at construction time. -/
def TradingPair.make (symbol exchange : String) (price volume_24h : ℚ)
    (bid ask change_24h : Option ℚ) (now : ℚ) : Option TradingPair :=
  if 0 < price ∧ 0 ≤ volume_24h
      ∧ bid.all (fun q => decide (0 < q)) ∧ ask.all (fun q => decide (0 < q)) then
    some ⟨symbol, exchange, price, volume_24h, bid, ask, change_24h, now⟩
  else none

/-- One raw entry of the Binance 24h ticker payload as
`TradeScanner._parse_binance_tickers` reads it: each field is the string
found under the key when present, `none` when the key is missing. -/
structure RawTicker where
  symbol : Option String
  lastPrice : Option String
  volume : Option String
  priceChangePercent : Option String
deriving DecidableEq

/-- `float(ticker.get(key, 0))`: the default `0` when the key is missing,
Python float parsing of the string otherwise (`none` embeds `ValueError`). -/
def tickerField (v : Option String) : Option ℚ :=
  match v with
  | none => some 0
  | some s => pyFloat s

/-- One iteration of the `_parse_binance_tickers` loop: the `TradingPair`
built from one raw ticker, or `none` when a parse or validation error is
caught there and the record skipped. -/
def parseBinanceTicker (now : ℚ) (t : RawTicker) : Option TradingPair :=
  match tickerField t.lastPrice, tickerField t.volume, tickerField t.priceChangePercent with
  | some price, some vol, some chg =>
    TradingPair.make (t.symbol.getD "") "binance" price vol none none (some chg) now
  | _, _, _ => none

/-- `TradeScanner._parse_binance_tickers`: every entry is attempted in order;
an entry whose construction fails is skipped and the loop continues. -/
def parse_binance_tickers (now : ℚ) (tickers : List RawTicker) : List TradingPair :=
  tickers.filterMap (parseBinanceTicker now)

/-- `ScannerConfig` of `src/src/models/trade.py`: the fields the scan core
reads.  Credential and logging fields, which no claim concerns, are
omitted. -/
structure ScannerConfig where
  min_volume : ℚ
  min_price : ℚ
  cache_duration : ℚ
  timeout : ℚ
  retry_attempts : Nat
  enabled_exchanges : List String
deriving DecidableEq

/-- `ExchangeType` of `src/src/models/trade.py`: the values of the
supported-exchange enumeration, in declaration order. -/
def ExchangeType.values : List String :=
  ["binance", "coinbase", "kraken", "coingecko"]

/-- `ScannerConfig.validate_exchanges`: the pydantic field validator walks
the enabled list and raises `ValueError` (here `Except.error`) at the first
name outside the `ExchangeType` enumeration, returning the list unchanged
otherwise. -/
def validate_exchanges (v : List String) : Except String (List String) :=
  match v.find? (fun e => !(ExchangeType.values.contains e)) with
  | some e =>
    .error ("Exchange " ++ e ++ " not supported. Must be one of "
      ++ String.intercalate ", " ExchangeType.values)
  | none => .ok v

/-- `ScanResult` of `src/src/models/trade.py`.  Its pydantic `timestamp`
field, defaulting to creation time and read by no claim, is omitted; the
`duration` ge 0 bound holds at every construction site modelled. -/
structure ScanResult where
  exchange : String
  pairs : List TradingPair
  duration : ℚ
  success : Bool
  error : Option String
deriving DecidableEq

/-- The mutable attributes of `TradeScanner` (`src/src/scanner/core.py`):
the per-exchange stored pair lists in dict insertion order
(`self.scan_results`), the cache timestamp, and the keys of `self.apis`. -/
structure ScannerState where
  scan_results : List (String × List TradingPair)
  cache_timestamp : Option ℚ
  apis : List String
deriving DecidableEq

/-- `TradeScanner._is_cache_valid` read at instant `now` (seconds): no
timestamp means no valid cache; otherwise the elapsed seconds since the
timestamp must be below `cache_duration`. -/
def is_cache_valid (config : ScannerConfig) (st : ScannerState) (now : ℚ) : Bool :=
  match st.cache_timestamp with
  | none => false
  | some t0 => decide (now - t0 < config.cache_duration)

/-- `TradeScanner._apply_filters`: the list comprehension keeping a pair
exactly when its volume reaches `min_volume` and its price reaches
`min_price`. -/
def apply_filters (config : ScannerConfig) : List TradingPair → List TradingPair
  | [] => []
  | p :: ps =>
    if config.min_volume ≤ p.volume_24h ∧ config.min_price ≤ p.price then
      p :: apply_filters config ps
    else apply_filters config ps

/-- Python dict assignment `d[k] = v` on the scan-results map: replace in
place when the key exists (iteration order kept), append otherwise. -/
def dictInsert (m : List (String × List TradingPair)) (k : String)
    (v : List TradingPair) : List (String × List TradingPair) :=
  if m.any (fun p => p.1 == k) then
    m.map (fun p => if p.1 == k then (k, v) else p)
  else m ++ [(k, v)]

/-- `TradeScanner.scan_single_exchange` on an exchange present in
`self.apis`, with the adapter-call-and-parse phase abstracted as its outcome
`fetched` (the pairs produced, or the message of the exception raised) and
the measured elapsed seconds as `dur`: a success filters the pairs, stores
them under the exchange key and reports them; any caught exception becomes a
failed `ScanResult` with empty pairs and the captured message, storing
nothing. -/
def scan_single_exchange (config : ScannerConfig) (st : ScannerState)
    (exchange : String) (fetched : Except String (List TradingPair)) (dur : ℚ) :
    ScanResult × ScannerState :=
  match fetched with
  | .ok pairs =>
    let filtered := apply_filters config pairs
    (⟨exchange, filtered, dur, true, none⟩,
      { st with scan_results := dictInsert st.scan_results exchange filtered })
  | .error msg => (⟨exchange, [], dur, false, some msg⟩, st)

/-- The result a scan task produces for one exchange, as a function of the
fetch outcome alone (`scan_single_exchange` builds it independently of the
stored state). -/
def scanOutcome (config : ScannerConfig)
    (fetch : String → Except String (List TradingPair)) (durOf : String → ℚ)
    (e : String) : ScanResult :=
  match fetch e with
  | .ok pairs => ⟨e, apply_filters config pairs, durOf e, true, none⟩
  | .error msg => ⟨e, [], durOf e, false, some msg⟩

/-- `TradeScanner.scan_all_exchanges`.  `fetch` gives each exchange task its
adapter-and-parse outcome and `durOf` its measured duration; `now` is the
instant of the cache check and `done` the instant read once every task has
completed.  Returns the per-exchange results in task order, the new scanner
state, and how many exchange fetches were issued (zero on the cache path). -/
def scan_all_exchanges (config : ScannerConfig) (st : ScannerState)
    (fetch : String → Except String (List TradingPair)) (durOf : String → ℚ)
    (now done : ℚ) : List (String × ScanResult) × ScannerState × Nat :=
  if is_cache_valid config st now then
    (st.scan_results.map (fun ep => (ep.1, ⟨ep.1, ep.2, 0, true, none⟩)), st, 0)
  else
    let step := st.apis.foldl
      (fun acc e =>
        let out := scan_single_exchange config acc.2.1 e (fetch e) (durOf e)
        (acc.1 ++ [(e, out.1)], out.2, acc.2.2 + 1))
      (([] : List (String × ScanResult)), st, 0)
    (step.1, { step.2.1 with cache_timestamp := some done }, step.2.2)

/-- Stands for the Python rendering of a float field in a CSV row: an exact
rendering of the rational. -/
def floatRepr (q : ℚ) : String := toString q

/-- Stands for `datetime.isoformat()` on the instant carried as a
rational. -/
def isoformat (t : ℚ) : String := toString t

/-- The fixed CSV header line of `TradeScanner.export_results`. -/
def csvHeader : String := "symbol,exchange,price,volume_24h,timestamp"

/-- One CSV data row of `TradeScanner.export_results`. -/
def csvRow (p : TradingPair) : String :=
  p.symbol ++ "," ++ p.exchange ++ "," ++ floatRepr p.price ++ ","
    ++ floatRepr p.volume_24h ++ "," ++ isoformat p.timestamp

/-- Stands for the `json.dumps` rendering of the JSON export branch; no
claim constrains the JSON text, only that the branch succeeds. -/
def jsonExport (st : ScannerState) : String :=
  "timestamp: "
    ++ (match st.cache_timestamp with
        | none => "null"
        | some t => isoformat t)
    ++ ", results: " ++ String.intercalate ", " (st.scan_results.map (fun ep => ep.1))

/-- `TradeScanner.export_results` (returned string; the optional file write
is out of scope): the JSON branch, the CSV branch building the header line
then one row per pair of each exchange in map iteration order, and a raised
`ValueError` (here `Except.error`) for any other format value. -/
def export_results (st : ScannerState) (output_format : String) :
    Except String String :=
  if output_format = "json" then
    .ok (jsonExport st)
  else if output_format = "csv" then
    .ok (String.intercalate "\n"
      (st.scan_results.foldl (fun lines ep => lines ++ ep.2.map csvRow) [csvHeader]))
  else
    .error ("Unsupported export format: " ++ output_format)

/-- One Binance kline row (`[open_time, open, high, low, close, ...]`):
the fields the range fetcher and the analytics read. -/
structure Kline where
  open_time : Int
  open_price : ℚ
  high : ℚ
  low : ℚ
  close : ℚ
deriving DecidableEq

/-- `batch[-1]` of the non-empty batch `b :: bs`. -/
def lastRow (b : Kline) : List Kline → Kline
  | [] => b
  | c :: cs => lastRow c cs

/-- The batching loop of `BinanceAPI.get_klines_range` (`while cur < end_ms`
in `src/src/api/binance.py` and `src/binance_api.py`), with the upstream
kline request at cursor `cur` abstracted as `fetch cur` and an explicit
iteration bound: `none` embeds a loop that has not finished within the
bound.  Each batch is appended, the cursor advances to one millisecond past
the open time of the last returned row, and the loop stops on an empty
batch, on a batch below the 1500-row page cap, or when the cursor reaches
`end_ms`. -/
def get_klines_range_loop (fetch : Int → List Kline) (end_ms : Int) :
    Nat → Int → List Kline → Option (List Kline)
  | 0, _, _ => none
  | fuel + 1, cur, data =>
    if cur < end_ms then
      match fetch cur with
      | [] => some data
      | b :: bs =>
        if (b :: bs).length < 1500 then some (data ++ (b :: bs))
        else
          get_klines_range_loop fetch end_ms fuel
            ((lastRow b bs).open_time + 1) (data ++ (b :: bs))
    else some data

/-- `BinanceAPI.get_klines_range` over `[start_ms, end_ms)`: the batching
loop started at `start_ms` with empty data and iteration bound
`(end_ms - start_ms) + 1`, enough for every terminating run since the
cursor strictly advances at each batch. -/
def get_klines_range (fetch : Int → List Kline) (start_ms end_ms : Int) :
    Option (List Kline) :=
  get_klines_range_loop fetch end_ms ((end_ms - start_ms).toNat + 1) start_ms []

/-- Open times strictly increase along a kline list. -/
def timeSorted (l : List Kline) : Prop :=
  l.Pairwise (fun a b => a.open_time < b.open_time)

/-- Modelled from the spec: the Session/Fibonacci analytics module of spec
section 4.7 has no source under `src/`.  Step 6 reads: scan candles
strictly after the session end time, in time order; the first candle whose
`[low, high]` interval contains the target price level is the touch (time
and level recorded); absence of any such candle means no touch. -/
def detect_touch (session_end : Int) (level : ℚ) : List Kline → Option (Int × ℚ)
  | [] => none
  | c :: cs =>
    if session_end < c.open_time ∧ c.low ≤ level ∧ level ≤ c.high then
      some (c.open_time, level)
    else detect_touch session_end level cs

/-- The explicit recursion of `apply_filters` is the list filter with the
configured predicate. -/
theorem apply_filters_eq_filter (config : ScannerConfig) (pairs : List TradingPair) :
    apply_filters config pairs
      = pairs.filter
          (fun p => decide (config.min_volume ≤ p.volume_24h ∧ config.min_price ≤ p.price)) := by
  induction pairs with
  | nil => rfl
  | cons p ps ih =>
    by_cases h : config.min_volume ≤ p.volume_24h ∧ config.min_price ≤ p.price
    · simp [apply_filters, List.filter_cons, h, ih]
    · simp [apply_filters, List.filter_cons, h, ih]

/-- C5: the filter keeps a pair exactly when its 24h volume reaches
`min_volume` and its price reaches `min_price`, preserving order and making
no other change; and in the end-to-end scenario with `min_volume` 1000 and
`min_price` 0.01, the pair parsed from the BTCUSDT ticker is kept while the
XYZUSDT one is dropped. -/
theorem apply_filters_spec (config : ScannerConfig) (pairs : List TradingPair) :
    (apply_filters config pairs).Sublist pairs
    ∧ (∀ p, p ∈ apply_filters config pairs ↔
        p ∈ pairs ∧ config.min_volume ≤ p.volume_24h ∧ config.min_price ≤ p.price)
    ∧ (apply_filters ⟨1000, mkRat 1 100, 300, 10, 3, ["binance"]⟩
        (parse_binance_tickers 0
          [⟨some "BTCUSDT", some "45000", some "1000000", some "2.5"⟩,
           ⟨some "XYZUSDT", some "0.001", some "5", some "0"⟩])).map TradingPair.symbol
      = ["BTCUSDT"] := by
  refine ⟨?_, ?_, by decide⟩
  · rw [apply_filters_eq_filter]
    exact List.filter_sublist _
  · intro p
    rw [apply_filters_eq_filter]
    simp [List.mem_filter]

/-- C7 counterexample: the name "coingecko" lies outside the set
{binance, coinbase, kraken} named by the claim, yet the enabled-exchange
validator accepts a list holding it, so configuration construction
succeeds. -/
theorem validate_exchanges_accepts_coingecko :
    validate_exchanges ["coingecko"] = .ok ["coingecko"]
    ∧ "coingecko" ∉ (["binance", "coinbase", "kraken"] : List String) :=
  ⟨by rfl, by decide⟩

/-- C7 (amended): validation of `enabled_exchanges` fails at configuration
construction time exactly when the list holds a name outside the
`ExchangeType` enumeration {binance, coinbase, kraken, coingecko}; a list
drawn only from that enumeration is returned unchanged. -/
theorem validate_exchanges_spec (v : List String) :
    ((validate_exchanges v = .ok v) ↔ ∀ e ∈ v, e ∈ ExchangeType.values)
    ∧ ((∃ msg, validate_exchanges v = .error msg) ↔ ∃ e ∈ v, e ∉ ExchangeType.values) := by
  cases hf : v.find? (fun e => !(ExchangeType.values.contains e)) with
  | none =>
    have hall : ∀ e ∈ v, e ∈ ExchangeType.values := by
      intro e he
      have h := List.find?_eq_none.mp hf e he
      simpa using h
    have hok : validate_exchanges v = .ok v := by
      unfold validate_exchanges
      rw [hf]
    refine ⟨⟨fun _ => hall, fun _ => hok⟩, ?_, ?_⟩
    · rintro ⟨msg, hmsg⟩
      rw [hok] at hmsg
      exact absurd hmsg (by simp)
    · rintro ⟨e, he, hne⟩
      exact absurd (hall e he) hne
  | some e =>
    have hpe : e ∉ ExchangeType.values := by
      have h := List.find?_some hf
      simpa using h
    have hme : e ∈ v := List.mem_of_find?_eq_some hf
    have herr : ∃ msg, validate_exchanges v = .error msg := by
      refine ⟨"Exchange " ++ e ++ " not supported. Must be one of "
        ++ String.intercalate ", " ExchangeType.values, ?_⟩
      unfold validate_exchanges
      rw [hf]
    refine ⟨⟨fun h => ?_, fun hall => absurd (hall e hme) hpe⟩,
      fun _ => ⟨e, hme, hpe⟩, fun _ => herr⟩
    obtain ⟨msg, hmsg⟩ := herr
    rw [h] at hmsg
    exact absurd hmsg (by simp)

/-- The CSV line accumulation of `export_results` appends, after the initial
lines, one row per pair of each exchange in map iteration order. -/
theorem csv_fold_append (rows : List (String × List TradingPair)) :
    ∀ init : List String,
      rows.foldl (fun lines ep => lines ++ ep.2.map csvRow) init
        = init ++ rows.flatMap (fun ep => ep.2.map csvRow) := by
  induction rows with
  | nil => intro init; simp
  | cons r rs ih => intro init; simp [ih, List.append_assoc]

/-- C8: `export_results` raises an unsupported-format error exactly when the
format argument is neither "json" nor "csv"; the "csv" output is the fixed
header line followed by one row per stored pair across all exchanges in the
iteration order of the result map. -/
theorem export_results_spec (st : ScannerState) (fmt : String) :
    ((∃ msg, export_results st fmt = .error msg) ↔ fmt ≠ "json" ∧ fmt ≠ "csv")
    ∧ export_results st "csv"
      = .ok (String.intercalate "\n"
          (csvHeader :: st.scan_results.flatMap (fun ep => ep.2.map csvRow))) := by
  constructor
  · by_cases h1 : fmt = "json"
    · simp [export_results, h1]
    · by_cases h2 : fmt = "csv"
      · simp [export_results, h1, h2]
      · simp [export_results, h1, h2]
  · rw [export_results, if_neg (by decide), if_pos rfl, csv_fold_append]
    rfl

/-- C10: a `scan_single_exchange` call that returns a failed `ScanResult`
leaves the scanner state, in particular the stored scan-results map,
unchanged: the store happens only on the success path. -/
theorem scan_single_failure_preserves_state (config : ScannerConfig)
    (st : ScannerState) (exchange : String)
    (fetched : Except String (List TradingPair)) (dur : ℚ)
    (hfail : (scan_single_exchange config st exchange fetched dur).1.success = false) :
    (scan_single_exchange config st exchange fetched dur).2 = st := by
  cases fetched with
  | ok pairs => simp [scan_single_exchange] at hfail
  | error msg => rfl

/-- C10 witness: a failing fetch against a concrete state with a stored
binance result leaves that state untouched. -/
theorem scan_single_failure_preserves_state_witness :
    (scan_single_exchange ⟨1000, mkRat 1 100, 300, 10, 3, ["binance"]⟩
      ⟨[("binance", [])], some 0, ["binance"]⟩ "binance"
      (.error "connection lost") 0).2
      = ⟨[("binance", [])], some 0, ["binance"]⟩ :=
  scan_single_failure_preserves_state _ _ _ _ _ rfl

/-- C1: with the cache timestamp set by a prior scan-all at `t0`, a
`scan_all_exchanges` call at `t0 + d` with `d` below `cache_duration`
issues zero fetches, leaves the scanner state unchanged, and returns one
cached `ScanResult` per stored exchange carrying exactly the pairs of the
prior scan. -/
theorem scan_all_cache_hit (config : ScannerConfig) (st : ScannerState)
    (fetch : String → Except String (List TradingPair)) (durOf : String → ℚ)
    (done t0 d : ℚ) (hts : st.cache_timestamp = some t0)
    (hd : d < config.cache_duration) :
    (scan_all_exchanges config st fetch durOf (t0 + d) done).2.2 = 0
    ∧ (scan_all_exchanges config st fetch durOf (t0 + d) done).2.1 = st
    ∧ (scan_all_exchanges config st fetch durOf (t0 + d) done).1
        = st.scan_results.map (fun ep => (ep.1, ⟨ep.1, ep.2, 0, true, none⟩))
    ∧ ((scan_all_exchanges config st fetch durOf (t0 + d) done).1).map
        (fun er => (er.1, er.2.pairs))
      = st.scan_results := by
  have hv : is_cache_valid config st (t0 + d) = true := by
    unfold is_cache_valid
    rw [hts]
    simp only [decide_eq_true_eq]
    have harith : t0 + d - t0 = d := by ring
    rw [harith]
    exact hd
  refine ⟨by simp [scan_all_exchanges, hv], by simp [scan_all_exchanges, hv],
    by simp [scan_all_exchanges, hv], ?_⟩
  simp only [scan_all_exchanges, hv, if_true, List.map_map]
  have hcomp : ((fun er : String × ScanResult => (er.1, er.2.pairs))
      ∘ fun ep : String × List TradingPair =>
        (ep.1, (⟨ep.1, ep.2, 0, true, none⟩ : ScanResult)))
      = fun ep => ep := by
    funext ep
    rfl
  rw [hcomp]
  exact List.map_id' st.scan_results

/-- C1 witness: a concrete cache hit, with the timestamp at 0, the call at
0 + 1, and a 300 second cache window, issues zero fetches and returns the
stored binance pairs. -/
theorem scan_all_cache_hit_witness :
    (scan_all_exchanges ⟨1000, mkRat 1 100, 300, 10, 3, ["binance"]⟩
        ⟨[("binance", [])], some 0, ["binance"]⟩ (fun _ => .ok []) (fun _ => 0)
        (0 + 1) 5).2.2 = 0
    ∧ (scan_all_exchanges ⟨1000, mkRat 1 100, 300, 10, 3, ["binance"]⟩
        ⟨[("binance", [])], some 0, ["binance"]⟩ (fun _ => .ok []) (fun _ => 0)
        (0 + 1) 5).2.1 = ⟨[("binance", [])], some 0, ["binance"]⟩
    ∧ (scan_all_exchanges ⟨1000, mkRat 1 100, 300, 10, 3, ["binance"]⟩
        ⟨[("binance", [])], some 0, ["binance"]⟩ (fun _ => .ok []) (fun _ => 0)
        (0 + 1) 5).1
      = [("binance", ⟨"binance", [], 0, true, none⟩)]
    ∧ ((scan_all_exchanges ⟨1000, mkRat 1 100, 300, 10, 3, ["binance"]⟩
        ⟨[("binance", [])], some 0, ["binance"]⟩ (fun _ => .ok []) (fun _ => 0)
        (0 + 1) 5).1).map (fun er => (er.1, er.2.pairs))
      = [("binance", [])] :=
  scan_all_cache_hit ⟨1000, mkRat 1 100, 300, 10, 3, ["binance"]⟩
    ⟨[("binance", [])], some 0, ["binance"]⟩ (fun _ => .ok []) (fun _ => 0)
    5 0 1 rfl (by decide)

/-- The `ScanResult` a single task reports depends on its own fetch outcome
only, not on the threaded scanner state. -/
theorem scan_single_fst (config : ScannerConfig) (st : ScannerState)
    (fetch : String → Except String (List TradingPair)) (durOf : String → ℚ)
    (e : String) :
    (scan_single_exchange config st e (fetch e) (durOf e)).1
      = scanOutcome config fetch durOf e := by
  cases h : fetch e <;> simp [scan_single_exchange, scanOutcome, h]

/-- The aggregation fold of `scan_all_exchanges` produces one entry per
exchange of `self.apis`, in task order, each determined by its own fetch
outcome. -/
theorem scan_fold_results (config : ScannerConfig)
    (fetch : String → Except String (List TradingPair)) (durOf : String → ℚ) :
    ∀ (apis : List String) (acc : List (String × ScanResult))
      (st : ScannerState) (n : Nat),
      (apis.foldl
        (fun acc2 e =>
          let out := scan_single_exchange config acc2.2.1 e (fetch e) (durOf e)
          (acc2.1 ++ [(e, out.1)], out.2, acc2.2.2 + 1))
        (acc, st, n)).1
      = acc ++ apis.map (fun e => (e, scanOutcome config fetch durOf e)) := by
  intro apis
  induction apis with
  | nil => intro acc st n; simp
  | cons e es ih =>
    intro acc st n
    rw [List.foldl_cons]
    show (es.foldl _
      (acc ++ [(e, (scan_single_exchange config st e (fetch e) (durOf e)).1)],
        (scan_single_exchange config st e (fetch e) (durOf e)).2, n + 1)).1 = _
    rw [ih, scan_single_fst]
    simp

/-- On the fetching path the aggregated results of `scan_all_exchanges` are
exactly the per-exchange outcomes, in the order of `self.apis`. -/
theorem scan_all_results_eq (config : ScannerConfig) (st : ScannerState)
    (fetch : String → Except String (List TradingPair)) (durOf : String → ℚ)
    (now done : ℚ) (hcache : is_cache_valid config st now = false) :
    (scan_all_exchanges config st fetch durOf now done).1
      = st.apis.map (fun e => (e, scanOutcome config fetch durOf e)) := by
  unfold scan_all_exchanges
  rw [hcache]
  simpa using scan_fold_results config fetch durOf st.apis [] st 0

/-- C2: when one enabled exchange's adapter raises on every attempt,
`scan_all_exchanges` still returns instead of raising: the failing exchange
appears as a `ScanResult` with `success = false`, empty pairs and the
captured exception message, and every exchange whose fetch succeeds appears
as a successful `ScanResult` carrying its filtered pairs. -/
theorem scan_all_partial_failure (config : ScannerConfig) (st : ScannerState)
    (fetch : String → Except String (List TradingPair)) (durOf : String → ℚ)
    (now done : ℚ) (b m : String)
    (hcache : is_cache_valid config st now = false)
    (hb : b ∈ st.apis) (hfb : fetch b = .error m) :
    ((b, (⟨b, [], durOf b, false, some m⟩ : ScanResult))
        ∈ (scan_all_exchanges config st fetch durOf now done).1)
    ∧ (∀ e ∈ st.apis, ∀ ps, fetch e = .ok ps →
        (e, (⟨e, apply_filters config ps, durOf e, true, none⟩ : ScanResult))
          ∈ (scan_all_exchanges config st fetch durOf now done).1) := by
  rw [scan_all_results_eq config st fetch durOf now done hcache]
  constructor
  · exact List.mem_map.mpr ⟨b, hb, by simp [scanOutcome, hfb]⟩
  · intro e he ps hok
    exact List.mem_map.mpr ⟨e, he, by simp [scanOutcome, hok]⟩

/-- C2 witness: three concrete enabled exchanges with the middle one always
raising — its entry is the captured failure. -/
theorem scan_all_partial_failure_witness :
    ("beta", (⟨"beta", [], 0, false, some "boom"⟩ : ScanResult))
      ∈ (scan_all_exchanges ⟨1000, mkRat 1 100, 300, 10, 3, ["alpha", "beta", "gamma"]⟩
          ⟨[], none, ["alpha", "beta", "gamma"]⟩
          (fun e => if e = "beta" then .error "boom" else .ok []) (fun _ => 0) 0 1).1 :=
  (scan_all_partial_failure ⟨1000, mkRat 1 100, 300, 10, 3, ["alpha", "beta", "gamma"]⟩
    ⟨[], none, ["alpha", "beta", "gamma"]⟩
    (fun e => if e = "beta" then .error "boom" else .ok []) (fun _ => 0) 0 1
    "beta" "boom" rfl (by decide) rfl).1

/-- The last row of a non-empty batch is one of its rows. -/
theorem lastRow_mem : ∀ (bs : List Kline) (b : Kline), lastRow b bs ∈ b :: bs
  | [], b => List.mem_singleton_self b
  | c :: cs, b => List.mem_cons_of_mem b (lastRow_mem cs c)

/-- In a batch with strictly increasing open times, every row opens no later
than the last row. -/
theorem le_lastRow : ∀ (bs : List Kline) (b : Kline), timeSorted (b :: bs) →
    ∀ k ∈ b :: bs, k.open_time ≤ (lastRow b bs).open_time := by
  intro bs
  induction bs with
  | nil =>
    intro b _ k hk
    rw [List.mem_singleton] at hk
    rw [hk]
    exact le_refl _
  | cons c cs ih =>
    intro b hsort k hk
    have hhead : ∀ x ∈ c :: cs, b.open_time < x.open_time :=
      (List.pairwise_cons.mp hsort).1
    have htail : timeSorted (c :: cs) := (List.pairwise_cons.mp hsort).2
    rcases List.mem_cons.mp hk with rfl | hm
    · exact le_of_lt (hhead _ (lastRow_mem cs c))
    · exact ih c htail k hm

/-- Invariant of the batching loop: starting from sorted data lying wholly
before the cursor, with every upstream batch sorted and at or after its
requested cursor, any data the loop returns is sorted. -/
theorem get_klines_range_loop_sorted (fetch : Int → List Kline) (end_ms : Int)
    (hinc : ∀ c, timeSorted (fetch c))
    (hge : ∀ c, ∀ k ∈ fetch c, c ≤ k.open_time) :
    ∀ (fuel : Nat) (cur : Int) (data res : List Kline),
      timeSorted data → (∀ k ∈ data, k.open_time < cur) →
      get_klines_range_loop fetch end_ms fuel cur data = some res →
      timeSorted res := by
  intro fuel
  induction fuel with
  | zero =>
    intro cur data res _ _ hrun
    exact absurd hrun (by simp [get_klines_range_loop])
  | succ f ih =>
    intro cur data res hsort hlt hrun
    rw [get_klines_range_loop] at hrun
    split at hrun
    · split at hrun
      · cases hrun
        exact hsort
      · rename_i hcur b bs hfc
        have hbatch : timeSorted (b :: bs) := by
          have h := hinc cur
          rw [hfc] at h
          exact h
        have hgeb : ∀ k ∈ b :: bs, cur ≤ k.open_time := by
          intro k hk
          have h := hge cur k
          rw [hfc] at h
          exact h hk
        have hsort2 : timeSorted (data ++ b :: bs) := by
          rw [timeSorted, List.pairwise_append]
          exact ⟨hsort, hbatch,
            fun x hx y hy => lt_of_lt_of_le (hlt x hx) (hgeb y hy)⟩
        have hlt2 : ∀ k ∈ data ++ b :: bs,
            k.open_time < (lastRow b bs).open_time + 1 := by
          intro k hk
          rcases List.mem_append.mp hk with hkd | hkb
          · have h1 := hlt k hkd
            have h2 := hgeb (lastRow b bs) (lastRow_mem bs b)
            omega
          · have h1 := le_lastRow bs b hbatch k hkb
            omega
        split at hrun
        · cases hrun
          exact hsort2
        · exact ih _ _ _ hsort2 hlt2 hrun
    · cases hrun
      exact hsort

/-- C3: when every upstream batch has increasing open times no earlier than
its requested cursor, any result of `get_klines_range` has strictly
increasing open times — in particular no returned row duplicates the last
open time of the previous batch, since the cursor advances one millisecond
past it. -/
theorem get_klines_range_sorted (fetch : Int → List Kline)
    (start_ms end_ms : Int) (res : List Kline)
    (hinc : ∀ c, timeSorted (fetch c))
    (hge : ∀ c, ∀ k ∈ fetch c, c ≤ k.open_time)
    (hrun : get_klines_range fetch start_ms end_ms = some res) :
    timeSorted res :=
  get_klines_range_loop_sorted fetch end_ms hinc hge _ start_ms [] res
    (by rw [timeSorted]; exact List.Pairwise.nil) (by simp) hrun

/-- C3 witness: a concrete one-batch run (each batch is the single row at
the requested cursor; the first batch is below the page cap, so the loop
stops) yields a sorted result. -/
theorem get_klines_range_sorted_witness :
    timeSorted [(⟨0, 0, 0, 0, 0⟩ : Kline)] :=
  get_klines_range_sorted (fun c => [⟨c, 0, 0, 0, 0⟩]) 0 3 [⟨0, 0, 0, 0, 0⟩]
    (fun c => by rw [timeSorted]; exact List.pairwise_singleton _ _)
    (fun c k hk => by
      rw [List.mem_singleton] at hk
      rw [hk])
    (by decide)

/-- Fuel lemma for termination: when every non-empty batch ends at or after
its requested cursor, the cursor strictly advances, so the loop finishes
within `end_ms - cur` iterations. -/
theorem get_klines_range_loop_terminates (fetch : Int → List Kline) (end_ms : Int)
    (hlast : ∀ c b bs, fetch c = b :: bs → c ≤ (lastRow b bs).open_time) :
    ∀ (fuel : Nat) (cur : Int) (data : List Kline),
      (end_ms - cur).toNat < fuel →
      (get_klines_range_loop fetch end_ms fuel cur data).isSome := by
  intro fuel
  induction fuel with
  | zero => intro cur data h; omega
  | succ f ih =>
    intro cur data hfuel
    rw [get_klines_range_loop]
    by_cases hcur : cur < end_ms
    · rw [if_pos hcur]
      cases hfc : fetch cur with
      | nil => simp
      | cons b bs =>
        show (if (b :: bs).length < 1500 then some (data ++ (b :: bs))
          else get_klines_range_loop fetch end_ms f
            ((lastRow b bs).open_time + 1) (data ++ (b :: bs))).isSome = true
        by_cases hlen : (b :: bs).length < 1500
        · rw [if_pos hlen]
          simp
        · rw [if_neg hlen]
          apply ih
          have hc := hlast cur b bs hfc
          omega
    · rw [if_neg hcur]
      simp

/-- C4: for `start_ms < end_ms` the range fetch terminates within its
declared iteration bound — even when the upstream always returns exactly the
1500-row page cap — provided each non-empty batch's last open time is at
least the requested cursor; it stops on an empty batch, on a batch below the
cap, or when the cursor reaches or passes `end_ms`. -/
theorem get_klines_range_terminates (fetch : Int → List Kline)
    (start_ms end_ms : Int) (_hse : start_ms < end_ms)
    (hlast : ∀ c b bs, fetch c = b :: bs → c ≤ (lastRow b bs).open_time) :
    (get_klines_range fetch start_ms end_ms).isSome :=
  get_klines_range_loop_terminates fetch end_ms hlast _ start_ms [] (by omega)

/-- C4 witness: a concrete range fetch whose upstream immediately reports
exhaustion terminates. -/
theorem get_klines_range_terminates_witness :
    (get_klines_range (fun _ => ([] : List Kline)) 0 2).isSome :=
  get_klines_range_terminates (fun _ => ([] : List Kline)) 0 2 (by decide)
    (fun _ _ _ h => nomatch h)

/-- C6: a raw Binance ticker entry whose price field parses to a
non-positive number yields no `TradingPair` — the validation failure is
caught and the record skipped, not raised — and the surrounding batch still
normalizes every other entry: parsing with the bad entry spliced in equals
parsing the rest of the batch. -/
theorem parse_binance_drop_rule (now : ℚ) (t : RawTicker) (p : ℚ)
    (pre post : List RawTicker)
    (hp : tickerField t.lastPrice = some p) (hnp : p ≤ 0) :
    parseBinanceTicker now t = none
    ∧ parse_binance_tickers now (pre ++ t :: post)
        = parse_binance_tickers now pre ++ parse_binance_tickers now post := by
  have hdrop : parseBinanceTicker now t = none := by
    unfold parseBinanceTicker
    rw [hp]
    cases hv : tickerField t.volume with
    | none => rfl
    | some vol =>
      cases hc : tickerField t.priceChangePercent with
      | none => rfl
      | some chg =>
        show TradingPair.make (t.symbol.getD "") "binance" p vol
          none none (some chg) now = none
        unfold TradingPair.make
        rw [if_neg]
        intro hcontra
        exact absurd hcontra.1 (not_lt.mpr hnp)
  refine ⟨hdrop, ?_⟩
  simp [parse_binance_tickers, List.filterMap_append, List.filterMap_cons, hdrop]

/-- C6 witness: the ticker with price "-5" is dropped while the well-formed
BTCUSDT and ETHUSDT entries of the same batch are still normalized. -/
theorem parse_binance_drop_rule_witness :
    parseBinanceTicker 0 ⟨some "XYZUSDT", some "-5", some "5", some "0"⟩ = none
    ∧ parse_binance_tickers 0
        ([⟨some "BTCUSDT", some "45000", some "1000000", some "2.5"⟩]
          ++ (⟨some "XYZUSDT", some "-5", some "5", some "0"⟩ : RawTicker)
            :: [⟨some "ETHUSDT", some "2500", some "800000", some "1.2"⟩])
      = parse_binance_tickers 0
          [⟨some "BTCUSDT", some "45000", some "1000000", some "2.5"⟩]
        ++ parse_binance_tickers 0
          [⟨some "ETHUSDT", some "2500", some "800000", some "1.2"⟩] :=
  parse_binance_drop_rule 0 ⟨some "XYZUSDT", some "-5", some "5", some "0"⟩
    (mkRat (-5) 1) [⟨some "BTCUSDT", some "45000", some "1000000", some "2.5"⟩]
    [⟨some "ETHUSDT", some "2500", some "800000", some "1.2"⟩]
    (by decide) (by decide)

/-- Touch detection reports nothing exactly when no candle strictly after
the session end contains the level. -/
theorem detect_touch_eq_none (T : Int) (level : ℚ) :
    ∀ candles : List Kline,
      detect_touch T level candles = none ↔
        ∀ c ∈ candles, T < c.open_time → ¬(c.low ≤ level ∧ level ≤ c.high)
  | [] => by simp [detect_touch]
  | c :: cs => by
    rw [detect_touch]
    by_cases h : T < c.open_time ∧ c.low ≤ level ∧ level ≤ c.high
    · rw [if_pos h]
      constructor
      · intro hcontra
        exact absurd hcontra (by simp)
      · intro hall
        exact absurd ⟨h.2.1, h.2.2⟩ (hall c (List.mem_cons_self c cs) h.1)
    · rw [if_neg h]
      rw [detect_touch_eq_none T level cs]
      constructor
      · intro hall c2 hc2 ht
        rcases List.mem_cons.mp hc2 with rfl | hm
        · intro hcontra
          exact h ⟨ht, hcontra.1, hcontra.2⟩
        · exact hall c2 hm ht
      · intro hall c2 hm ht
        exact hall c2 (List.mem_cons_of_mem c hm) ht

/-- A reported touch carries the level itself and the open time of the
earliest qualifying candle of a time-ordered series. -/
theorem detect_touch_eq_some (T : Int) (level : ℚ) :
    ∀ candles : List Kline, timeSorted candles →
      ∀ t p, detect_touch T level candles = some (t, p) →
        p = level
        ∧ (∃ c ∈ candles, c.open_time = t ∧ T < t ∧ c.low ≤ level ∧ level ≤ c.high)
        ∧ ∀ c ∈ candles, T < c.open_time → c.low ≤ level → level ≤ c.high →
            t ≤ c.open_time
  | [], _, t, p => by simp [detect_touch]
  | c :: cs, hs, t, p => by
    rw [detect_touch]
    by_cases h : T < c.open_time ∧ c.low ≤ level ∧ level ≤ c.high
    · rw [if_pos h]
      intro heq
      have hpair : (c.open_time, level) = (t, p) := Option.some.inj heq
      obtain ⟨hco, hlv⟩ := Prod.mk.inj hpair
      refine ⟨hlv.symm, ⟨c, List.mem_cons_self c cs, hco, hco ▸ h.1, h.2.1, h.2.2⟩, ?_⟩
      intro c2 hc2 ht2 _ _
      rcases List.mem_cons.mp hc2 with rfl | hm
      · rw [hco]
      · have hlt := (List.pairwise_cons.mp hs).1 c2 hm
        rw [← hco]
        exact le_of_lt hlt
    · rw [if_neg h]
      intro heq
      have hs2 : timeSorted cs := (List.pairwise_cons.mp hs).2
      obtain ⟨hp, ⟨c2, hc2, hco, hTt, hl, hh⟩, hmin⟩ :=
        detect_touch_eq_some T level cs hs2 t p heq
      refine ⟨hp, ⟨c2, List.mem_cons_of_mem c hc2, hco, hTt, hl, hh⟩, ?_⟩
      intro c3 hc3 ht3 hl3 hh3
      rcases List.mem_cons.mp hc3 with rfl | hm
      · exact absurd ⟨ht3, hl3, hh3⟩ h
      · exact hmin c3 hm ht3 hl3 hh3

/-- C9 (modelled from the spec, see `detect_touch`): touch detection scans
only candles strictly after the session end, in time order, and reports the
level with the open time of the earliest candle whose low-high range
contains it; with no qualifying candle nothing is reported; and for a
session ending at T, the candidate candle at T is excluded while the candle
at T + 1 with range 99 to 101 is the reported touch for level 100. -/
theorem detect_touch_spec (candles : List Kline) (T : Int) (level : ℚ)
    (hs : timeSorted candles) :
    (detect_touch T level candles = none ↔
      ∀ c ∈ candles, T < c.open_time → ¬(c.low ≤ level ∧ level ≤ c.high))
    ∧ (∀ t p, detect_touch T level candles = some (t, p) →
        p = level
        ∧ (∃ c ∈ candles, c.open_time = t ∧ T < t ∧ c.low ≤ level ∧ level ≤ c.high)
        ∧ ∀ c ∈ candles, T < c.open_time → c.low ≤ level → level ≤ c.high →
            t ≤ c.open_time)
    ∧ (∀ T0 : Int,
        detect_touch T0 100
          [⟨T0, 100, 101, 99, 100⟩, ⟨T0 + 1, 100, 101, 99, 100⟩]
          = some (T0 + 1, 100)) := by
  refine ⟨detect_touch_eq_none T level candles,
    detect_touch_eq_some T level candles hs, ?_⟩
  intro T0
  have h1 : ¬(T0 < (⟨T0, 100, 101, 99, 100⟩ : Kline).open_time
      ∧ (⟨T0, 100, 101, 99, 100⟩ : Kline).low ≤ (100 : ℚ)
      ∧ (100 : ℚ) ≤ (⟨T0, 100, 101, 99, 100⟩ : Kline).high) :=
    fun hcontra => absurd hcontra.1 (lt_irrefl T0)
  have h2 : T0 < (⟨T0 + 1, 100, 101, 99, 100⟩ : Kline).open_time
      ∧ (⟨T0 + 1, 100, 101, 99, 100⟩ : Kline).low ≤ (100 : ℚ)
      ∧ (100 : ℚ) ≤ (⟨T0 + 1, 100, 101, 99, 100⟩ : Kline).high :=
    ⟨by show T0 < T0 + 1; omega, by show (99 : ℚ) ≤ 100; norm_num,
      by show (100 : ℚ) ≤ 101; norm_num⟩
  rw [detect_touch, if_neg h1, detect_touch, if_pos h2]

/-- C9 witness: a concrete session ending at 0 with the two candidate
candles at 0 and 1 reports the touch at time 1, level 100. -/
theorem detect_touch_spec_witness :
    detect_touch 0 100 [⟨0, 100, 101, 99, 100⟩, ⟨0 + 1, 100, 101, 99, 100⟩]
      = some (0 + 1, 100) :=
  (detect_touch_spec [] 0 100 (by rw [timeSorted]; exact List.Pairwise.nil)).2.2 0
